import Mathlib

/-!
# Gamma ramps of the X11 backend (`src/x11.cpp`)

A shallow embedding of `X11::X11`, `X11::screenOfDisplay`, `X11::fillRamp`,
`X11::setGamma` and `X11::setInitialGamma`, with the properties of the ramp they compute
and push to the CRT controller.

`double` values are rationals and every `double` operation rounds its exact result to the
nearest binary64 value, ties to even.  The integers of the program (`int`, `int32_t`) are
`ℤ` and `ℕ`; `uint16_t` entries are `ℕ` with the narrowing written out.
-/

namespace Gammy

/-! ## binary64 arithmetic -/

/-- Exponent of the binade of `x`: `⌊log₂ |x|⌋`, not below the exponent `-1022` of the
subnormal range. -/
def binadeExp (x : ℚ) : ℤ := max (Int.log 2 |x|) (-1022)

/-- Nearest integer, ties to the even one. -/
def roundHalfEven (x : ℚ) : ℤ :=
  if x - ⌊x⌋ < 1 / 2 then ⌊x⌋
  else if 1 / 2 < x - ⌊x⌋ then ⌊x⌋ + 1
  else if ⌊x⌋ % 2 = 0 then ⌊x⌋ else ⌊x⌋ + 1

/-- Nearest binary64 value (53-bit significand, round to nearest, ties to even).  The
overflow to infinity above `2 ^ 1024` is left out: the operands of this program are 32-bit
integers and colour factors, whose products stay far below it. -/
def roundDouble (x : ℚ) : ℚ :=
  roundHalfEven (x / 2 ^ (binadeExp x - 52)) * 2 ^ (binadeExp x - 52)

/-- The `double` product `x * y`. -/
def fmul (x y : ℚ) : ℚ := roundDouble (x * y)

/-- The `double` quotient `x / y`, for a divisor other than zero. -/
def fdiv (x y : ℚ) : ℚ := roundDouble (x / y)

/-- The conversion `int(x)` of a `double`: the fractional part is discarded.  (C++ defines
it only when the result fits an `int`.) -/
def truncToInt (x : ℚ) : ℤ := if 0 ≤ x then ⌊x⌋ else ⌈x⌉

/-- The conversion `uint16_t(x)` of a `double`: truncation, then the low 16 bits.  (C++
defines it only when the truncated value is in `[0, 65535]`, where the reduction is the
identity.) -/
def toUInt16 (x : ℚ) : ℕ := (truncToInt x % 65536).toNat

/-- The function `std::clamp(v, lo, hi)` on `int`. -/
def clamp (v lo hi : ℤ) : ℤ := if v < lo then lo else if hi < v then hi else v

/-- The constant `UINT16_MAX`. -/
def UINT16_MAX : ℤ := 65535

/-! ## What `x11.cpp` takes from `utils.h` and `defs.h` -/

/-- The colour factors `std::array<double, 3>` of the red, green and blue channel. -/
structure Colors where
  c0 : ℚ
  c1 : ℚ
  c2 : ℚ

/-- The factor `c[k]` of channel `k`. -/
def Colors.get (c : Colors) (k : ℕ) : ℚ :=
  match k with
  | 0 => c.c0
  | 1 => c.c1
  | _ => c.c2

/-- Modelled from the spec: `normalize` of `utils.h`, which is not part of the sources;
"`normalize(lo, hi, v)` maps `v` linearly from `[lo, hi]` to `[0.0, 1.0]`", that is
`(v - lo) / (hi - lo)` as a `double`.  The two differences of integers are exact. -/
def normalize (lo hi v : ℤ) : ℚ := fdiv ((v - lo : ℤ) : ℚ) ((hi - lo : ℤ) : ℚ)

/-- The two names of `defs.h` and `utils.h` that `fillRamp` uses and the sources do not
contain: the constant `brt_slider_steps` (the spec's `BRIGHTNESS_STEPS`) and the
temperature lookup `setColors(temp_step, c)`, which overwrites the colour factors. -/
structure Externals where
  brt_slider_steps : ℤ
  setColors : ℤ → Colors → Colors

/-! ## `X11::fillRamp` -/

/-- The value `val` of the loop body of `fillRamp` at index `i`:
`std::clamp(int(normalize(0, brt_slider_steps, brightness) * ramp_mult * i), 0, UINT16_MAX)`. -/
def rampVal (brt_slider_steps ramp_mult brightness : ℤ) (i : ℕ) : ℤ :=
  clamp (truncToInt (fmul (fmul (normalize 0 brt_slider_steps brightness) ramp_mult) i))
    0 UINT16_MAX

/-- The stores of the loop of `fillRamp`, in program order, as pairs of an index into `ramp`
and the value stored: iteration `i` executes `r[i] = …; g[i] = …; b[i] = …` with
`r = &ramp[0 * ramp_sz]`, `g = &ramp[1 * ramp_sz]`, `b = &ramp[2 * ramp_sz]`. -/
def fillRampStores (ext : Externals) (ramp_sz : ℕ) (brightness temp_step : ℤ) :
    List (ℕ × ℕ) :=
  let c := ext.setColors temp_step ⟨1, 1, 1⟩
  let ramp_mult : ℤ := (UINT16_MAX + 1) / ramp_sz
  (List.range ramp_sz).flatMap fun i =>
    let val := rampVal ext.brt_slider_steps ramp_mult brightness i
    [(0 * ramp_sz + i, toUInt16 (fmul val c.c0)),
     (1 * ramp_sz + i, toUInt16 (fmul val c.c1)),
     (2 * ramp_sz + i, toUInt16 (fmul val c.c2))]

/-- One store into the buffer; `none` when the index is outside it. -/
def store (ramp : List ℕ) (kv : ℕ × ℕ) : Option (List ℕ) :=
  if kv.1 < ramp.length then some (ramp.set kv.1 kv.2) else none

/-- The method `X11::fillRamp(ramp, brightness, temp_step)`: the buffer after the loop.
`none` stands for the two faults the code does not guard against: the division by zero in
`ramp_mult = (UINT16_MAX + 1) / ramp_sz` and a store outside `ramp`. -/
def fillRamp (ext : Externals) (ramp_sz : ℕ) (ramp : List ℕ) (brightness temp_step : ℤ) :
    Option (List ℕ) :=
  if ramp_sz = 0 then none
  else (fillRampStores ext ramp_sz brightness temp_step).foldlM store ramp

/-- The red (`k = 0`), green (`k = 1`) and blue (`k = 2`) part of a ramp buffer: the
`ramp_sz` entries from `&ramp[k * ramp_sz]` on. -/
def channel (ramp_sz : ℕ) (ramp : List ℕ) (k : ℕ) : List ℕ :=
  (ramp.drop (k * ramp_sz)).take ramp_sz

/-- Entry `i` of channel `k` of a ramp buffer, `(&ramp[k * ramp_sz])[i]`. -/
def entry (ramp_sz : ℕ) (ramp : List ℕ) (k i : ℕ) : Option ℕ := ramp[k * ramp_sz + i]?

/-- The value `fillRamp` stores at index `i` of a channel with colour factor `cf`. -/
def channelVal (ext : Externals) (ramp_sz : ℕ) (brightness : ℤ) (cf : ℚ) (i : ℕ) : ℕ :=
  toUInt16 (fmul (rampVal ext.brt_slider_steps ((UINT16_MAX + 1) / ramp_sz) brightness i) cf)

/-! ## The spec's formulas -/

/-- The spec's `base`: `clamp(normalize(0, BRIGHTNESS_STEPS, brightnessLevel) *
rampMultiplier * i, 0, 65535)` with `rampMultiplier = 65536 / rampSize` (integer division),
the `double` product converted to an integer before clamping. -/
def specBase (brightnessSteps : ℤ) (rampSize : ℕ) (brightnessLevel : ℤ) (i : ℕ) : ℤ :=
  let rampMultiplier : ℤ := 65536 / rampSize
  let product := fmul (fmul (normalize 0 brightnessSteps brightnessLevel) rampMultiplier) i
  max 0 (min (truncToInt product) 65535)

/-- Rounding to the nearest integer, halves away from zero (`round` of `<cmath>`). -/
def roundNearest (x : ℚ) : ℤ := if 0 ≤ x then ⌊x + 1 / 2⌋ else ⌈x - 1 / 2⌉

/-- The spec's channel value `round(base * colorFactor[channel])`. -/
def specChannel (base : ℤ) (colorFactor : ℚ) : ℤ := roundNearest (fmul base colorFactor)

/-! ## The display server as `x11.cpp` sees it -/

/-- The fields of `xcb_screen_t` the constructor reads. -/
structure Screen where
  root : ℕ
  width_in_pixels : ℕ
  height_in_pixels : ℕ

/-- A reply to `xcb_randr_get_screen_resources`: the count of CRT controllers in its header
and the 32-bit words behind the header, which begin with the CRT controller ids and go on
with the outputs and modes.  `xcb_randr_get_screen_resources_crtcs` points at the first of
these words. -/
structure ScreenResourcesReply where
  num_crtcs : ℕ
  payload : List ℕ

/-- A reply to `xcb_randr_get_crtc_gamma`: the ramp size (a 16-bit field) and what the
accessors `xcb_randr_get_crtc_gamma_red`, `_green`, `_blue` return, `none` for a null
pointer. -/
structure CrtcGammaReply where
  size : ℕ
  red : Option (List ℕ)
  green : Option (List ℕ)
  blue : Option (List ℕ)

/-- What the connection delivers during construction: `connected` says whether
`xcb_connect` returned a non-null connection, `scr_num` is the screen number it reported,
`roots` are the screens of the setup, and the two functions are the replies of the server,
`none` for a null reply. -/
structure Display where
  connected : Bool
  scr_num : ℤ
  roots : List Screen
  screen_resources : ℕ → Option ScreenResourcesReply
  crtc_gamma : ℕ → Option CrtcGammaReply

/-- The gamma ramp of one CRT controller on the server. -/
structure CrtcGamma where
  size : ℕ
  red : List ℕ
  green : List ℕ
  blue : List ℕ

/-- The gamma ramps the server holds, by CRT controller id. -/
abbrev Server := ℕ → Option CrtcGamma

/-- The fields of the class `X11` (the connection handle apart). -/
structure X11 where
  root : ℕ
  ramp_sz : ℕ
  scr_num : ℤ
  crtc_num : ℕ
  init_ramp : List ℕ
  initial_ramp_exists : Bool
  w : ℕ
  h : ℕ

/-- How the constructor ends: the process exits with `EXIT_FAILURE`, the constructor reads
behind the end of a reply, or the object is constructed. -/
inductive Outcome where
  | exitFailure
  | outOfBoundsRead
  | constructed (x : X11)

/-- The loop of `screenOfDisplay`:
`for (; iter.rem; --screen, xcb_screen_next(&iter)) if (screen == 0) return iter.data;`
followed by `return NULL`. -/
def screenIter : List Screen → ℤ → Option Screen
  | [], _ => none
  | s :: rest, screen => if screen = 0 then some s else screenIter rest (screen - 1)

/-- The method `X11::screenOfDisplay(screen)`. -/
def screenOfDisplay (disp : Display) (screen : ℤ) : Option Screen :=
  if !disp.connected then none else screenIter disp.roots screen

/-- The constructor `X11::X11()`.  The first CRT controller is read at
`*firstCrtc` with no look at the count of controllers.  `init_ramp` is resized to
`3 * ramp_sz * sizeof(uint16_t)` zero entries, and of every channel only the entry the
accessor points at is copied, to `d[0 * ramp_sz]`, `d[1 * ramp_sz]` and `d[2 * ramp_sz]`.
(The three entries are read after `free(gammaReply)`; they are taken to be still those of
the reply.) -/
def X11.construct (disp : Display) : Outcome :=
  match screenOfDisplay disp disp.scr_num with
  | none => .exitFailure
  | some scr =>
    match disp.screen_resources scr.root with
    | none => .exitFailure
    | some scrResReply =>
      match scrResReply.payload[0]? with
      | none => .outOfBoundsRead
      | some crtc_num =>
        match disp.crtc_gamma crtc_num with
        | none => .exitFailure
        | some gammaReply =>
          if gammaReply.size = 0 then .exitFailure
          else
            let ramp_sz := gammaReply.size
            let init_ramp := List.replicate (3 * ramp_sz * 2) 0
            let x : X11 :=
              { root := scr.root, ramp_sz := ramp_sz, scr_num := disp.scr_num,
                crtc_num := crtc_num, init_ramp := init_ramp, initial_ramp_exists := true,
                w := scr.width_in_pixels, h := scr.height_in_pixels }
            match gammaReply.red, gammaReply.green, gammaReply.blue with
            | some r, some g, some b =>
              match r[0]?, g[0]?, b[0]? with
              | some r0, some g0, some b0 =>
                .constructed { x with
                  init_ramp :=
                    ((init_ramp.set (0 * ramp_sz) r0).set (1 * ramp_sz) g0).set (2 * ramp_sz) b0 }
              | _, _, _ => .outOfBoundsRead
            | _, _, _ => .constructed { x with initial_ramp_exists := false }

/-- The `size` entries a ramp pointer `&buf[off]` hands to the server; `none` when they do
not all lie inside the buffer. -/
def readRamp (buf : List ℕ) (off size : ℕ) : Option (List ℕ) :=
  if off + size ≤ buf.length then some ((buf.drop off).take size) else none

/-- The request `xcb_randr_set_crtc_gamma(dsp, crtc, size, &buf[offR], &buf[offG],
&buf[offB])`: the server takes `size` entries from each pointer as the new ramp of the
controller. -/
def xcb_randr_set_crtc_gamma (srv : Server) (crtc size : ℕ) (buf : List ℕ)
    (offR offG offB : ℕ) : Option Server :=
  match readRamp buf offR size, readRamp buf offG size, readRamp buf offB size with
  | some red, some green, some blue =>
    some (Function.update srv crtc (some ⟨size, red, green, blue⟩))
  | _, _, _ => none

/-- The method `X11::setGamma(scr_br, temp)`, on the object and the server. -/
def X11.setGamma (ext : Externals) (x : X11) (srv : Server) (scr_br temp : ℤ) :
    Option (X11 × Server) :=
  match fillRamp ext x.ramp_sz (List.replicate (3 * x.ramp_sz * 2) 0) scr_br temp with
  | none => none
  | some r =>
    match xcb_randr_set_crtc_gamma srv x.crtc_num x.ramp_sz r
        (0 * x.ramp_sz) (1 * x.ramp_sz) (2 * x.ramp_sz) with
    | none => none
    | some srv' => some (x, srv')

/-- The method `X11::setGamma(temp)`: maximum brightness. -/
def X11.setGammaTemp (ext : Externals) (x : X11) (srv : Server) (temp : ℤ) :
    Option (X11 × Server) :=
  x.setGamma ext srv ext.brt_slider_steps temp

/-- The method `X11::setInitialGamma(set_previous)`. -/
def X11.setInitialGamma (ext : Externals) (x : X11) (srv : Server) (set_previous : Bool) :
    Option (X11 × Server) :=
  if set_previous && x.initial_ramp_exists then
    match xcb_randr_set_crtc_gamma srv x.crtc_num x.ramp_sz x.init_ramp
        (0 * x.ramp_sz) (1 * x.ramp_sz) (2 * x.ramp_sz) with
    | none => none
    | some srv' => some (x, srv')
  else
    x.setGamma ext srv ext.brt_slider_steps 0

/-- A call of one of the two `setGamma` overloads. -/
inductive GammaCall where
  | setGamma (scr_br temp : ℤ)
  | setGammaTemp (temp : ℤ)

/-- A sequence of `setGamma` calls, one after the other. -/
def runCalls (ext : Externals) : List GammaCall → X11 × Server → Option (X11 × Server)
  | [], st => some st
  | .setGamma scr_br temp :: rest, st =>
    match st.1.setGamma ext st.2 scr_br temp with
    | none => none
    | some st' => runCalls ext rest st'
  | .setGammaTemp temp :: rest, st =>
    match st.1.setGammaTemp ext st.2 temp with
    | none => none
    | some st' => runCalls ext rest st'

/-! ## Concrete inputs -/

/-- A slider of 2048 steps and a temperature lookup that leaves the factors at `1.0`. -/
def neutralExt : Externals := ⟨2048, fun _ c => c⟩

/-- A slider of 1000 steps and a temperature lookup that, away from step 0, lowers the blue
factor to `127 / 128 = 0.9921875`. -/
def warmExt : Externals := ⟨1000, fun t c => if t = 0 then c else ⟨1, 1, 127 / 128⟩⟩

/-- A gamma ramp of four entries with a lifted black level. -/
def sampleRamp : List ℕ := [256, 21845, 43690, 65535]

/-- A display with one screen (root window 1) and one CRT controller (id 63) whose gamma
ramp has four entries per channel. -/
def sampleDisplay : Display :=
  { connected := true
    scr_num := 0
    roots := [⟨1, 1920, 1080⟩]
    screen_resources := fun _ => some ⟨1, [63, 66]⟩
    crtc_gamma := fun _ => some ⟨4, some sampleRamp, some sampleRamp, some sampleRamp⟩ }

/-- The object the constructor builds on `sampleDisplay`. -/
def sampleX11 : X11 :=
  { root := 1, ramp_sz := 4, scr_num := 0, crtc_num := 63,
    init_ramp := [256, 0, 0, 0, 256, 0, 0, 0, 256, 0, 0, 0, 0, 0, 0, 0, 0, 0, 0, 0, 0, 0, 0, 0],
    initial_ramp_exists := true, w := 1920, h := 1080 }

/-- A display whose screen-resources reply reports no CRT controller: the count is 0 and
the words behind the header hold the id 66 of the one output.  The server answers a gamma
query with a ramp of four entries per channel. -/
def noCrtcDisplay : Display :=
  { connected := true
    scr_num := 0
    roots := [⟨1, 1920, 1080⟩]
    screen_resources := fun _ => some ⟨0, [66]⟩
    crtc_gamma := fun _ => some ⟨4, some sampleRamp, some sampleRamp, some sampleRamp⟩ }

/-- A server that holds no ramp yet. -/
def emptyServer : Server := fun _ => none

/-! ## Rounding to binary64: exactness and monotonicity -/

theorem roundHalfEven_intCast (n : ℤ) : roundHalfEven (n : ℚ) = n := by
  simp [roundHalfEven]

theorem floor_le_roundHalfEven (x : ℚ) : ⌊x⌋ ≤ roundHalfEven x := by
  unfold roundHalfEven
  split_ifs <;> omega

theorem roundHalfEven_le_floor_succ (x : ℚ) : roundHalfEven x ≤ ⌊x⌋ + 1 := by
  unfold roundHalfEven
  split_ifs <;> omega

theorem roundHalfEven_mono {x y : ℚ} (h : x ≤ y) : roundHalfEven x ≤ roundHalfEven y := by
  rcases (Int.floor_mono h).lt_or_eq with hlt | heq
  · calc roundHalfEven x ≤ ⌊x⌋ + 1 := roundHalfEven_le_floor_succ x
      _ ≤ ⌊y⌋ := hlt
      _ ≤ roundHalfEven y := floor_le_roundHalfEven y
  · unfold roundHalfEven
    rw [heq]
    have hxy : x - (⌊y⌋ : ℚ) ≤ y - (⌊y⌋ : ℚ) := by linarith
    split_ifs <;> first | omega | (exfalso; linarith)

theorem int_log_two_eq {r : ℚ} {e : ℤ} (hr : 0 < r) (h1 : (2 : ℚ) ^ e ≤ r)
    (h2 : r < (2 : ℚ) ^ (e + 1)) : Int.log 2 r = e := by
  have hb : 1 < 2 := by norm_num
  have a1 : e ≤ Int.log 2 r := (Int.zpow_le_iff_le_log hb hr).1 (by exact_mod_cast h1)
  have a2 : Int.log 2 r < e + 1 := (Int.lt_zpow_iff_log_lt hb hr).1 (by exact_mod_cast h2)
  omega

theorem roundDouble_zero : roundDouble 0 = 0 := by
  simp [roundDouble, roundHalfEven]

theorem roundDouble_of_scaled_int {x : ℚ} (z : ℤ)
    (h : x / 2 ^ (binadeExp x - 52) = z) : roundDouble x = x := by
  unfold roundDouble
  rw [h, roundHalfEven_intCast, ← h]
  have : (2 : ℚ) ^ (binadeExp x - 52) ≠ 0 := zpow_ne_zero _ (by norm_num)
  field_simp

theorem two_pow_mul_zpow (a : ℕ) (e : ℤ) :
    (((2 : ℤ) ^ a : ℤ) : ℚ) * 2 ^ (e - 52) = 2 ^ (e - 52 + a) := by
  rw [Int.cast_pow, Int.cast_ofNat, ← zpow_natCast, ← zpow_add₀ (by norm_num : (2 : ℚ) ≠ 0)]
  congr 1; ring

theorem binadeExp_of_bounds {r : ℚ} {e : ℤ} (hr : 0 < r) (h1 : (2 : ℚ) ^ e ≤ r)
    (h2 : r < (2 : ℚ) ^ (e + 1)) : binadeExp r = max e (-1022) := by
  unfold binadeExp
  rw [abs_of_pos hr, int_log_two_eq hr h1 h2]

/-- Every `n * 2 ^ k` with a significand below `2 ^ 53` and an exponent in the binary64
range is representable, so rounding leaves it unchanged. -/
theorem roundDouble_dyadic (n : ℕ) (k : ℤ) (hn : n < 2 ^ 53) (hk : -1074 ≤ k) :
    roundDouble ((n : ℚ) * 2 ^ k) = (n : ℚ) * 2 ^ k := by
  rcases Nat.eq_zero_or_pos n with h0 | hpos
  · subst h0; simpa using roundDouble_zero
  have h2k : (0 : ℚ) < 2 ^ k := zpow_pos (by norm_num) k
  have hx : (0 : ℚ) < (n : ℚ) * 2 ^ k := mul_pos (by exact_mod_cast hpos) h2k
  have hlo : 2 ^ Nat.log 2 n ≤ n := Nat.pow_log_le_self 2 hpos.ne'
  have hhi : n < 2 ^ (Nat.log 2 n + 1) := Nat.lt_pow_succ_log_self (by norm_num) n
  have hL : Nat.log 2 n < 53 := Nat.log_lt_of_lt_pow hpos.ne' hn
  have e1 : (2 : ℚ) ^ ((Nat.log 2 n : ℤ) + k) ≤ (n : ℚ) * 2 ^ k := by
    rw [zpow_add₀ (by norm_num : (2 : ℚ) ≠ 0), zpow_natCast]
    exact mul_le_mul_of_nonneg_right (by exact_mod_cast hlo) h2k.le
  have e2 : (n : ℚ) * 2 ^ k < (2 : ℚ) ^ ((Nat.log 2 n : ℤ) + k + 1) := by
    have : (Nat.log 2 n : ℤ) + k + 1 = ((Nat.log 2 n + 1 : ℕ) : ℤ) + k := by push_cast; ring
    rw [this, zpow_add₀ (by norm_num : (2 : ℚ) ≠ 0), zpow_natCast]
    exact mul_lt_mul_of_pos_right (by exact_mod_cast hhi) h2k
  have hE := binadeExp_of_bounds hx e1 e2
  have hd : 0 ≤ k - (binadeExp ((n : ℚ) * 2 ^ k) - 52) := by
    rw [hE]; rcases max_cases ((Nat.log 2 n : ℤ) + k) (-1022) with ⟨h, _⟩ | ⟨h, _⟩ <;> (rw [h]; omega)
  obtain ⟨d, hd'⟩ := Int.eq_ofNat_of_zero_le hd
  apply roundDouble_of_scaled_int ((n * 2 ^ d : ℕ) : ℤ)
  rw [mul_div_assoc, ← zpow_sub₀ (by norm_num : (2 : ℚ) ≠ 0), hd']
  push_cast
  rw [zpow_natCast]

theorem roundDouble_natCast (n : ℕ) (hn : n < 2 ^ 53) : roundDouble (n : ℚ) = n := by
  simpa using roundDouble_dyadic n 0 hn (by norm_num)

theorem roundDouble_nonneg {x : ℚ} (hx : 0 ≤ x) : 0 ≤ roundDouble x := by
  unfold roundDouble
  have hu : (0 : ℚ) < 2 ^ (binadeExp x - 52) := zpow_pos (by norm_num) _
  have : (0 : ℤ) ≤ roundHalfEven (x / 2 ^ (binadeExp x - 52)) := by
    have := roundHalfEven_mono (div_nonneg hx hu.le)
    rwa [show ((0 : ℚ)) = ((0 : ℤ) : ℚ) by simp, roundHalfEven_intCast] at this
  exact mul_nonneg (by exact_mod_cast this) hu.le

theorem binadeExp_mono {x y : ℚ} (hx : 0 < x) (hxy : x ≤ y) : binadeExp x ≤ binadeExp y := by
  unfold binadeExp
  rw [abs_of_pos hx, abs_of_pos (lt_of_lt_of_le hx hxy)]
  exact max_le_max (Int.log_mono_right hx hxy) le_rfl

theorem roundDouble_le_next_binade {x : ℚ} (hx : 0 < x) :
    roundDouble x ≤ 2 ^ (binadeExp x + 1) := by
  unfold roundDouble
  have hu : (0 : ℚ) < 2 ^ (binadeExp x - 52) := zpow_pos (by norm_num) _
  have hlt : x < 2 ^ (binadeExp x + 1) := by
    have h := Int.lt_zpow_succ_log_self (R := ℚ) (b := 2) (by norm_num) x
    have hle : Int.log 2 x + 1 ≤ binadeExp x + 1 := by
      unfold binadeExp; rw [abs_of_pos hx]; have := le_max_left (Int.log 2 x) (-1022); omega
    calc x < (2 : ℚ) ^ (Int.log 2 x + 1) := by exact_mod_cast h
      _ ≤ 2 ^ (binadeExp x + 1) := zpow_le_zpow_right₀ (by norm_num) hle
  have hs : x / 2 ^ (binadeExp x - 52) ≤ ((2 ^ 53 : ℤ) : ℚ) := by
    rw [div_le_iff₀ hu]
    have : ((2 ^ 53 : ℤ) : ℚ) * 2 ^ (binadeExp x - 52) = 2 ^ (binadeExp x + 1) := by
      rw [two_pow_mul_zpow]; congr 1; norm_num; ring
    rw [this]; exact hlt.le
  have hr := roundHalfEven_mono hs
  rw [roundHalfEven_intCast] at hr
  have hq : ((roundHalfEven (x / 2 ^ (binadeExp x - 52)) : ℤ) : ℚ) ≤ ((2 ^ 53 : ℤ) : ℚ) := by
    exact_mod_cast hr
  calc _ ≤ ((2 ^ 53 : ℤ) : ℚ) * 2 ^ (binadeExp x - 52) := mul_le_mul_of_nonneg_right hq hu.le
    _ = 2 ^ (binadeExp x + 1) := by
      rw [two_pow_mul_zpow]; congr 1; norm_num; ring

theorem binade_le_roundDouble {y : ℚ} (hy : 0 < y) (hE : -1022 < binadeExp y) :
    (2 : ℚ) ^ binadeExp y ≤ roundDouble y := by
  have hlog : binadeExp y = Int.log 2 y := by
    unfold binadeExp at hE ⊢; rw [abs_of_pos hy] at hE ⊢
    rcases max_cases (Int.log 2 y) (-1022) with ⟨h, _⟩ | ⟨h, _⟩ <;> omega
  have hle : (2 : ℚ) ^ binadeExp y ≤ y := by
    rw [hlog]; exact_mod_cast Int.zpow_log_le_self (R := ℚ) (b := 2) (by norm_num) hy
  unfold roundDouble
  have hu : (0 : ℚ) < 2 ^ (binadeExp y - 52) := zpow_pos (by norm_num) _
  have key : ((2 ^ 52 : ℤ) : ℚ) * 2 ^ (binadeExp y - 52) = 2 ^ binadeExp y := by
    rw [two_pow_mul_zpow]; congr 1; norm_num
  have hs : ((2 ^ 52 : ℤ) : ℚ) ≤ y / 2 ^ (binadeExp y - 52) := by
    rw [le_div_iff₀ hu, key]; exact hle
  have hr := roundHalfEven_mono hs
  rw [roundHalfEven_intCast] at hr
  have hq : ((2 ^ 52 : ℤ) : ℚ) ≤ ((roundHalfEven (y / 2 ^ (binadeExp y - 52)) : ℤ) : ℚ) := by
    exact_mod_cast hr
  calc (2 : ℚ) ^ binadeExp y = ((2 ^ 52 : ℤ) : ℚ) * 2 ^ (binadeExp y - 52) := key.symm
    _ ≤ _ := mul_le_mul_of_nonneg_right hq hu.le

/-- Rounding to binary64 is monotone on the non-negative rationals. -/
theorem roundDouble_mono {x y : ℚ} (hx : 0 ≤ x) (hxy : x ≤ y) :
    roundDouble x ≤ roundDouble y := by
  rcases hx.lt_or_eq with hpos | h0
  · rcases (binadeExp_mono hpos hxy).lt_or_eq with hlt | heq
    · have hy : 0 < y := lt_of_lt_of_le hpos hxy
      have hE : -1022 < binadeExp y := by
        have : -1022 ≤ binadeExp x := le_max_right _ _
        omega
      calc roundDouble x ≤ 2 ^ (binadeExp x + 1) := roundDouble_le_next_binade hpos
        _ ≤ 2 ^ binadeExp y := zpow_le_zpow_right₀ (by norm_num) (by omega)
        _ ≤ roundDouble y := binade_le_roundDouble hy hE
    · unfold roundDouble
      rw [heq]
      have hu : (0 : ℚ) < 2 ^ (binadeExp y - 52) := zpow_pos (by norm_num) _
      have := roundHalfEven_mono (div_le_div_of_nonneg_right hxy hu.le)
      exact mul_le_mul_of_nonneg_right (by exact_mod_cast this) hu.le
  · rw [← h0, roundDouble_zero]
    exact roundDouble_nonneg (h0 ▸ hxy)

/-! ## The buffer `fillRamp` leaves -/

theorem foldlM_store_three (buf : List ℕ) (k0 k1 k2 v0 v1 v2 : ℕ)
    (h0 : k0 < buf.length) (h1 : k1 < buf.length) (h2 : k2 < buf.length) :
    List.foldlM store buf [(k0, v0), (k1, v1), (k2, v2)]
      = some (((buf.set k0 v0).set k1 v1).set k2 v2) := by
  simp [List.foldlM, store, h0, h1, h2]

/-- After the first `n` iterations of the loop the buffer holds the three channel values at
`i`, `ramp_sz + i` and `2 * ramp_sz + i` for every `i < n`, and its old content elsewhere. -/
theorem fillRamp_loop (ext : Externals) (rs : ℕ) (ramp : List ℕ) (br temp : ℤ)
    (hlen : 3 * rs ≤ ramp.length) (n : ℕ) (hn : n ≤ rs) :
    ∃ out : List ℕ,
      List.foldlM store ramp
        ((List.range n).flatMap fun i =>
          [(0 * rs + i, channelVal ext rs br (ext.setColors temp ⟨1, 1, 1⟩).c0 i),
           (1 * rs + i, channelVal ext rs br (ext.setColors temp ⟨1, 1, 1⟩).c1 i),
           (2 * rs + i, channelVal ext rs br (ext.setColors temp ⟨1, 1, 1⟩).c2 i)]) = some out
      ∧ out.length = ramp.length
      ∧ (∀ i, i < n →
          out[i]? = some (channelVal ext rs br (ext.setColors temp ⟨1, 1, 1⟩).c0 i)
          ∧ out[rs + i]? = some (channelVal ext rs br (ext.setColors temp ⟨1, 1, 1⟩).c1 i)
          ∧ out[2 * rs + i]? = some (channelVal ext rs br (ext.setColors temp ⟨1, 1, 1⟩).c2 i))
      ∧ (∀ k, 3 * rs ≤ k → out[k]? = ramp[k]?) := by
  induction n with
  | zero => exact ⟨ramp, by simp⟩
  | succ n ih =>
    obtain ⟨out, hout, hl, hget, hrest⟩ := ih (by omega)
    refine ⟨((out.set (0 * rs + n)
        (channelVal ext rs br (ext.setColors temp ⟨1, 1, 1⟩).c0 n)).set (1 * rs + n)
        (channelVal ext rs br (ext.setColors temp ⟨1, 1, 1⟩).c1 n)).set (2 * rs + n)
        (channelVal ext rs br (ext.setColors temp ⟨1, 1, 1⟩).c2 n), ?_, ?_, ?_, ?_⟩
    · rw [List.range_succ, List.flatMap_append, List.foldlM_append, hout]
      simp only [List.flatMap_cons, List.flatMap_nil, List.append_nil, Option.bind_eq_bind,
        Option.some_bind]
      exact foldlM_store_three out _ _ _ _ _ _ (by omega) (by omega) (by omega)
    · simp [hl]
    · intro i hi
      simp only [List.getElem?_set, List.length_set]
      rcases Nat.lt_succ_iff_lt_or_eq.1 hi with h | h
      · obtain ⟨a, b, c⟩ := hget i h
        refine ⟨?_, ?_, ?_⟩
        · rw [if_neg (by omega), if_neg (by omega), if_neg (by omega)]; exact a
        · rw [if_neg (by omega), if_neg (by omega), if_neg (by omega)]; exact b
        · rw [if_neg (by omega), if_neg (by omega), if_neg (by omega)]; exact c
      · subst h
        refine ⟨?_, ?_, ?_⟩
        · rw [if_neg (by omega), if_neg (by omega), if_pos (by omega), if_pos (by omega)]
        · rw [if_neg (by omega), if_pos (by omega), if_pos (by omega)]
        · rw [if_pos (by omega), if_pos (by omega)]
    · intro k hk
      simp only [List.getElem?_set, List.length_set]
      rw [if_neg (by omega), if_neg (by omega), if_neg (by omega)]
      exact hrest k hk

/-- With a non-zero ramp size and a buffer of at least `3 * ramp_sz` entries `fillRamp`
returns, and the buffer it leaves holds at `i`, `ramp_sz + i` and `2 * ramp_sz + i` the
values of the red, green and blue channel. -/
theorem fillRamp_spec (ext : Externals) (rs : ℕ) (ramp : List ℕ) (br temp : ℤ)
    (hrs : 0 < rs) (hlen : 3 * rs ≤ ramp.length) :
    ∃ out : List ℕ,
      fillRamp ext rs ramp br temp = some out
      ∧ out.length = ramp.length
      ∧ (∀ i, i < rs →
          out[i]? = some (channelVal ext rs br (ext.setColors temp ⟨1, 1, 1⟩).c0 i)
          ∧ out[rs + i]? = some (channelVal ext rs br (ext.setColors temp ⟨1, 1, 1⟩).c1 i)
          ∧ out[2 * rs + i]? = some (channelVal ext rs br (ext.setColors temp ⟨1, 1, 1⟩).c2 i))
      ∧ (∀ k, 3 * rs ≤ k → out[k]? = ramp[k]?) := by
  obtain ⟨out, h⟩ := fillRamp_loop ext rs ramp br temp hlen rs le_rfl
  refine ⟨out, ?_, h.2⟩
  rw [← h.1]
  simp [fillRamp, hrs.ne', fillRampStores, channelVal]

/-! ## The values of one iteration -/

theorem truncToInt_intCast (n : ℤ) : truncToInt (n : ℚ) = n := by
  unfold truncToInt; split_ifs <;> simp

theorem truncToInt_of_nonneg {x : ℚ} (hx : 0 ≤ x) : truncToInt x = ⌊x⌋ := by
  simp [truncToInt, hx]

theorem truncToInt_mono {x y : ℚ} (hx : 0 ≤ x) (hxy : x ≤ y) : truncToInt x ≤ truncToInt y := by
  rw [truncToInt_of_nonneg hx, truncToInt_of_nonneg (hx.trans hxy)]
  exact Int.floor_mono hxy

theorem clamp_mono {v w : ℤ} (lo hi : ℤ) (hlh : lo ≤ hi) (h : v ≤ w) :
    clamp v lo hi ≤ clamp w lo hi := by
  unfold clamp; split_ifs <;> omega

theorem clamp_bounds (v : ℤ) : 0 ≤ clamp v 0 UINT16_MAX ∧ clamp v 0 UINT16_MAX ≤ 65535 := by
  unfold clamp UINT16_MAX; split_ifs <;> omega

theorem clamp_eq_max_min (v : ℤ) : clamp v 0 UINT16_MAX = max 0 (min v 65535) := by
  unfold clamp UINT16_MAX; split_ifs <;> omega

theorem clamp_of_mem {v : ℤ} (h0 : 0 ≤ v) (h1 : v ≤ 65535) : clamp v 0 UINT16_MAX = v := by
  unfold clamp UINT16_MAX; split_ifs <;> omega

theorem roundDouble_intCast_of_nonneg {n : ℤ} (h0 : 0 ≤ n) (h1 : n < 2 ^ 53) :
    roundDouble (n : ℚ) = n := by
  obtain ⟨m, rfl⟩ := Int.eq_ofNat_of_zero_le h0
  have : m < 2 ^ 53 := by exact_mod_cast h1
  simpa using roundDouble_natCast m this

theorem fmul_zero_left (y : ℚ) : fmul 0 y = 0 := by simp [fmul, roundDouble_zero]

theorem fmul_zero_right (x : ℚ) : fmul x 0 = 0 := by simp [fmul, roundDouble_zero]

theorem fmul_nonneg {x y : ℚ} (hx : 0 ≤ x) (hy : 0 ≤ y) : 0 ≤ fmul x y :=
  roundDouble_nonneg (mul_nonneg hx hy)

theorem fmul_mono_right {x y z : ℚ} (hx : 0 ≤ x) (hy : 0 ≤ y) (hyz : y ≤ z) :
    fmul x y ≤ fmul x z :=
  roundDouble_mono (mul_nonneg hx hy) (mul_le_mul_of_nonneg_left hyz hx)

theorem fmul_mono_left {x y z : ℚ} (hx : 0 ≤ x) (hxy : x ≤ y) (hz : 0 ≤ z) :
    fmul x z ≤ fmul y z :=
  roundDouble_mono (mul_nonneg hx hz) (mul_le_mul_of_nonneg_right hxy hz)

theorem normalize_zero_eq (hi v : ℤ) : normalize 0 hi v = roundDouble ((v : ℚ) / hi) := by
  simp [normalize, fdiv]

theorem normalize_nonneg {hi v : ℤ} (hhi : 0 < hi) (hv : 0 ≤ v) : 0 ≤ normalize 0 hi v := by
  rw [normalize_zero_eq]
  exact roundDouble_nonneg (div_nonneg (by exact_mod_cast hv) (by exact_mod_cast hhi.le))

theorem normalize_bottom (hi : ℤ) : normalize 0 hi 0 = 0 := by
  rw [normalize_zero_eq]; simp [roundDouble_zero]

theorem normalize_top {hi : ℤ} (hhi : 0 < hi) : normalize 0 hi hi = 1 := by
  rw [normalize_zero_eq, div_self (by exact_mod_cast hhi.ne')]
  simpa using roundDouble_natCast 1 (by norm_num)

theorem normalize_le_one {hi v : ℤ} (hhi : 0 < hi) (hv0 : 0 ≤ v) (hv : v ≤ hi) :
    normalize 0 hi v ≤ 1 := by
  rw [← normalize_top hhi, normalize_zero_eq, normalize_zero_eq]
  have hq : (0 : ℚ) < hi := by exact_mod_cast hhi
  exact roundDouble_mono (div_nonneg (by exact_mod_cast hv0) hq.le)
    (div_le_div_of_nonneg_right (by exact_mod_cast hv) hq.le)

theorem rampVal_bounds (B m b : ℤ) (i : ℕ) : 0 ≤ rampVal B m b i ∧ rampVal B m b i ≤ 65535 :=
  clamp_bounds _

theorem rampVal_mono {B m b : ℤ} (hB : 0 < B) (hm : 0 ≤ m) (hb : 0 ≤ b) {i j : ℕ}
    (hij : i ≤ j) : rampVal B m b i ≤ rampVal B m b j := by
  unfold rampVal
  have hn := normalize_nonneg hB hb
  have hm' : (0 : ℚ) ≤ m := by exact_mod_cast hm
  have hp := fmul_nonneg hn hm'
  have hi : (0 : ℚ) ≤ (i : ℚ) := Nat.cast_nonneg i
  exact clamp_mono 0 UINT16_MAX (by decide)
    (truncToInt_mono (fmul_nonneg hp hi) (fmul_mono_right hp hi (by exact_mod_cast hij)))

theorem rampVal_zero_index (B m b : ℤ) : rampVal B m b 0 = 0 := by
  unfold rampVal
  simp only [Nat.cast_zero, fmul_zero_right]
  simpa using clamp_of_mem (v := truncToInt 0) (by simp [truncToInt]) (by simp [truncToInt])

theorem rampVal_zero_brightness (B m : ℤ) (i : ℕ) : rampVal B m 0 i = 0 := by
  unfold rampVal
  rw [normalize_bottom, fmul_zero_left, fmul_zero_left]
  simpa using clamp_of_mem (v := truncToInt 0) (by simp [truncToInt]) (by simp [truncToInt])

theorem rampVal_eq_specBase (B : ℤ) (rs : ℕ) (b : ℤ) (i : ℕ) :
    rampVal B ((UINT16_MAX + 1) / rs) b i = specBase B rs b i := by
  unfold rampVal specBase
  rw [clamp_eq_max_min]
  rfl

/-- At full brightness the value is `ramp_mult * i` as long as that fits 16 bits. -/
theorem rampVal_full {B m : ℤ} (hB : 0 < B) (hm : 0 ≤ m) (hm' : m ≤ 65536) (i : ℕ)
    (h : m * i ≤ 65535) : rampVal B m B i = m * i := by
  unfold rampVal
  have hmi : 0 ≤ m * i := mul_nonneg hm (Int.ofNat_nonneg i)
  have e1 : fmul (normalize 0 B B) (m : ℚ) = m := by
    rw [normalize_top hB, fmul, one_mul]
    exact roundDouble_intCast_of_nonneg hm (by omega)
  have e2 : fmul (m : ℚ) (i : ℚ) = ((m * i : ℤ) : ℚ) := by
    rw [fmul]
    have : (m : ℚ) * (i : ℚ) = ((m * i : ℤ) : ℚ) := by push_cast; ring
    rw [this]
    exact roundDouble_intCast_of_nonneg hmi (by omega)
  rw [e1, e2, truncToInt_intCast]
  exact clamp_of_mem hmi h

/-- Narrowing the product of a 16-bit value and a colour factor in `[0, 1]` loses nothing:
the stored entry is the integer part of the `double` product and does not exceed the value. -/
theorem toUInt16_fmul {v : ℤ} {c : ℚ} (hv0 : 0 ≤ v) (hv1 : v ≤ 65535) (hc0 : 0 ≤ c)
    (hc1 : c ≤ 1) :
    (toUInt16 (fmul v c) : ℤ) = ⌊fmul (v : ℚ) c⌋ ∧ 0 ≤ ⌊fmul (v : ℚ) c⌋ ∧ ⌊fmul (v : ℚ) c⌋ ≤ v := by
  have hvq : (0 : ℚ) ≤ v := by exact_mod_cast hv0
  have hp : 0 ≤ fmul (v : ℚ) c := fmul_nonneg hvq hc0
  have hle : fmul (v : ℚ) c ≤ v := by
    have h1 : fmul (v : ℚ) c ≤ fmul (v : ℚ) 1 := fmul_mono_right hvq hc0 hc1
    have h2 : fmul (v : ℚ) 1 = v := by
      rw [fmul, mul_one]; exact roundDouble_intCast_of_nonneg hv0 (by omega)
    rw [h2] at h1; exact h1
  have hf0 : 0 ≤ ⌊fmul (v : ℚ) c⌋ := Int.floor_nonneg.2 hp
  have hf1 : ⌊fmul (v : ℚ) c⌋ ≤ v := by
    have := Int.floor_mono hle
    rwa [Int.floor_intCast] at this
  refine ⟨?_, hf0, hf1⟩
  unfold toUInt16
  rw [truncToInt_of_nonneg hp, Int.toNat_of_nonneg (Int.emod_nonneg _ (by norm_num))]
  exact Int.emod_eq_of_lt hf0 (by omega)

theorem toUInt16_fmul_one {v : ℤ} (hv0 : 0 ≤ v) (hv1 : v ≤ 65535) :
    (toUInt16 (fmul v 1) : ℤ) = v := by
  rw [(toUInt16_fmul hv0 hv1 (by norm_num) (by norm_num)).1, fmul, mul_one,
    roundDouble_intCast_of_nonneg hv0 (by omega), Int.floor_intCast]

theorem toUInt16_fmul_zero (c : ℚ) : toUInt16 (fmul ((0 : ℤ) : ℚ) c) = 0 := by
  simp [fmul_zero_left, toUInt16, truncToInt]

theorem toUInt16_fmul_mono {v w : ℤ} {c : ℚ} (hv0 : 0 ≤ v) (hvw : v ≤ w) (hw : w ≤ 65535)
    (hc0 : 0 ≤ c) (hc1 : c ≤ 1) : toUInt16 (fmul v c) ≤ toUInt16 (fmul w c) := by
  have h1 := (toUInt16_fmul hv0 (hvw.trans hw) hc0 hc1).1
  have h2 := (toUInt16_fmul (hv0.trans hvw) hw hc0 hc1).1
  have hvq : (0 : ℚ) ≤ v := by exact_mod_cast hv0
  have : ⌊fmul (v : ℚ) c⌋ ≤ ⌊fmul (w : ℚ) c⌋ :=
    Int.floor_mono (fmul_mono_left hvq (by exact_mod_cast hvw) hc0)
  omega

theorem ramp_mult_nonneg (rs : ℕ) : 0 ≤ (UINT16_MAX + 1) / (rs : ℤ) :=
  Int.ediv_nonneg (by decide) (Int.ofNat_nonneg rs)

theorem channelVal_mono (ext : Externals) (rs : ℕ) (br : ℤ) {c : ℚ}
    (hB : 0 < ext.brt_slider_steps) (hb : 0 ≤ br) (hc0 : 0 ≤ c) (hc1 : c ≤ 1) {i j : ℕ}
    (hij : i ≤ j) : channelVal ext rs br c i ≤ channelVal ext rs br c j := by
  unfold channelVal
  exact toUInt16_fmul_mono (rampVal_bounds _ _ _ _).1
    (rampVal_mono hB (ramp_mult_nonneg rs) hb hij) (rampVal_bounds _ _ _ _).2 hc0 hc1

theorem channelVal_zero_index (ext : Externals) (rs : ℕ) (br : ℤ) (c : ℚ) :
    channelVal ext rs br c 0 = 0 := by
  unfold channelVal
  rw [rampVal_zero_index]; exact toUInt16_fmul_zero c

theorem channelVal_zero_brightness (ext : Externals) (rs : ℕ) (c : ℚ) (i : ℕ) :
    channelVal ext rs 0 c i = 0 := by
  unfold channelVal
  rw [rampVal_zero_brightness]; exact toUInt16_fmul_zero c

theorem channelVal_neutral (ext : Externals) (rs : ℕ) (br : ℤ) (i : ℕ) :
    (channelVal ext rs br 1 i : ℤ) = specBase ext.brt_slider_steps rs br i := by
  unfold channelVal
  rw [← rampVal_eq_specBase]
  have h := toUInt16_fmul_one (rampVal_bounds ext.brt_slider_steps ((UINT16_MAX + 1) / rs) br i).1
    (rampVal_bounds _ _ _ _).2
  exact_mod_cast h

/-- For a brightness inside the slider range the product converted by `int(…)` lies in
`[0, 65536]`, so the conversion is defined. -/
theorem rampVal_product_in_range {B b : ℤ} (rs i : ℕ) (hB : 0 < B) (hb0 : 0 ≤ b)
    (hb1 : b ≤ B) (hrs : 0 < rs) (hi : i < rs) :
    0 ≤ fmul (fmul (normalize 0 B b) (((UINT16_MAX + 1) / (rs : ℤ) : ℤ) : ℚ)) i
    ∧ fmul (fmul (normalize 0 B b) (((UINT16_MAX + 1) / (rs : ℤ) : ℤ) : ℚ)) i ≤ 65536 := by
  have hm0 := ramp_mult_nonneg rs
  have hmrs : (UINT16_MAX + 1) / (rs : ℤ) * rs ≤ 65536 :=
    Int.ediv_mul_le (UINT16_MAX + 1) (by exact_mod_cast hrs.ne')
  generalize (UINT16_MAX + 1) / (rs : ℤ) = m at hm0 hmrs ⊢
  have hirs : ((i : ℤ)) < rs := by exact_mod_cast hi
  have hi0 : (0 : ℤ) ≤ i := Int.ofNat_nonneg i
  have hmi : m * i ≤ 65536 := by nlinarith
  have hm1 : m ≤ 65536 := by nlinarith
  have hmi0 : 0 ≤ m * i := mul_nonneg hm0 hi0
  have hn0 := normalize_nonneg hB hb0
  have hn1 := normalize_le_one hB hb0 hb1
  have hmq : (0 : ℚ) ≤ m := by exact_mod_cast hm0
  have hiq : (0 : ℚ) ≤ (i : ℚ) := Nat.cast_nonneg i
  have h1 : fmul (normalize 0 B b) (m : ℚ) ≤ m := by
    have h := fmul_mono_left hn0 hn1 hmq
    have e1 : fmul 1 (m : ℚ) = m := by
      rw [fmul, one_mul]; exact roundDouble_intCast_of_nonneg hm0 (by omega)
    rwa [e1] at h
  have hp0 := fmul_nonneg hn0 hmq
  refine ⟨fmul_nonneg hp0 hiq, ?_⟩
  have h2 := fmul_mono_left hp0 h1 hiq
  have e : fmul (m : ℚ) (i : ℚ) = ((m * i : ℤ) : ℚ) := by
    rw [fmul]
    have : (m : ℚ) * (i : ℚ) = ((m * i : ℤ) : ℚ) := by push_cast; ring
    rw [this]
    exact roundDouble_intCast_of_nonneg hmi0 (by omega)
  rw [e] at h2
  exact h2.trans (by exact_mod_cast hmi)

/-! ## The entries of the three channels -/

/-- The result of `fillRamp` entry by entry: channel `k` holds at index `i` the value
`uint16_t(val * c[k])`. -/
theorem fillRamp_entries (ext : Externals) (rs : ℕ) (ramp : List ℕ) (br temp : ℤ)
    (hrs : 0 < rs) (hlen : 3 * rs ≤ ramp.length) :
    ∃ out : List ℕ,
      fillRamp ext rs ramp br temp = some out
      ∧ out.length = ramp.length
      ∧ ∀ k, k < 3 → ∀ i, i < rs →
          entry rs out k i
            = some (channelVal ext rs br ((ext.setColors temp ⟨1, 1, 1⟩).get k) i) := by
  obtain ⟨out, h1, h2, h3, -⟩ := fillRamp_spec ext rs ramp br temp hrs hlen
  refine ⟨out, h1, h2, ?_⟩
  intro k hk i hi
  unfold entry
  interval_cases k
  · simpa [Colors.get] using (h3 i hi).1
  · simpa [Colors.get] using (h3 i hi).2.1
  · simpa [Colors.get] using (h3 i hi).2.2

/-! ## Properties of the computed ramp -/

theorem specBase_half_brightness : specBase 2048 2048 1024 1024 = 16384 := by
  have e0 : normalize 0 2048 1024 = 1 / 2 := by
    rw [normalize_zero_eq]
    have h := roundDouble_dyadic 1 (-1) (by norm_num) (by norm_num)
    norm_num at h ⊢
    exact h
  have e1 : fmul (1 / 2) 32 = 16 := by
    rw [fmul]
    have h := roundDouble_natCast 16 (by norm_num)
    norm_num at h ⊢
    exact h
  have e2 : fmul 16 1024 = 16384 := by
    rw [fmul]
    have h := roundDouble_natCast 16384 (by norm_num)
    norm_num at h ⊢
    exact h
  have e3 : truncToInt (16384 : ℚ) = 16384 := by
    have := truncToInt_intCast 16384
    simpa using this
  unfold specBase
  norm_num [e0, e1, e2, e3]

/-- C1: for every ramp size above zero, every brightness in `[0, brt_slider_steps]` and
colour factors in `[0, 1]`, `fillRamp` returns a ramp whose three channels start with 0 and
are non-decreasing in the index: the entry at `i` is at most the entry at `j` for all
`i < j < ramp_sz`. -/
theorem fillRamp_nondecreasing (ext : Externals) (rs : ℕ) (ramp : List ℕ) (br temp : ℤ)
    (hrs : 0 < rs) (hlen : 3 * rs ≤ ramp.length) (hB : 0 < ext.brt_slider_steps)
    (hb0 : 0 ≤ br) (_hb1 : br ≤ ext.brt_slider_steps)
    (hc : ∀ k, k < 3 → 0 ≤ (ext.setColors temp ⟨1, 1, 1⟩).get k
      ∧ (ext.setColors temp ⟨1, 1, 1⟩).get k ≤ 1) :
    ∃ out : List ℕ,
      fillRamp ext rs ramp br temp = some out
      ∧ ∀ k, k < 3 →
          entry rs out k 0 = some 0
          ∧ ∀ i j, i < j → j < rs →
              ∃ a b, entry rs out k i = some a ∧ entry rs out k j = some b ∧ a ≤ b := by
  obtain ⟨out, h1, -, h3⟩ := fillRamp_entries ext rs ramp br temp hrs hlen
  refine ⟨out, h1, fun k hk => ⟨?_, ?_⟩⟩
  · rw [h3 k hk 0 hrs, channelVal_zero_index]
  · intro i j hij hj
    exact ⟨_, _, h3 k hk i (by omega), h3 k hk j hj,
      channelVal_mono ext rs br hB hb0 (hc k hk).1 (hc k hk).2 hij.le⟩

/-- Instance of C1 at ramp size 2048, brightness 600 of 1000 and a blue factor of `127 / 128`. -/
theorem fillRamp_nondecreasing_witness :
    (0 < 2048 ∧ 3 * 2048 ≤ (List.replicate 12288 0).length ∧ 0 < warmExt.brt_slider_steps
      ∧ (0 : ℤ) ≤ 600 ∧ 600 ≤ warmExt.brt_slider_steps)
    ∧ ∃ out : List ℕ,
      fillRamp warmExt 2048 (List.replicate 12288 0) 600 1 = some out
      ∧ ∀ k, k < 3 →
          entry 2048 out k 0 = some 0
          ∧ ∀ i j, i < j → j < 2048 →
              ∃ a b, entry 2048 out k i = some a ∧ entry 2048 out k j = some b ∧ a ≤ b :=
  ⟨⟨by decide, by simp only [List.length_replicate]; decide, by decide, by decide, by decide⟩,
    fillRamp_nondecreasing warmExt 2048 (List.replicate 12288 0) 600 1 (by decide)
      (by simp only [List.length_replicate]; decide)
      (by decide) (by decide) (by decide)
      (by intro k hk; interval_cases k <;> norm_num [warmExt, Colors.get])⟩

/-- C2: with the colour factors at `1.0`, every entry `fillRamp` writes, on each of the three
channels and at every index `i < ramp_sz`, equals the spec's
`clamp(normalize(0, BRIGHTNESS_STEPS, brightness) * rampMultiplier * i, 0, 65535)` with
`rampMultiplier = 65536 / ramp_sz`, the product converted to an integer before clamping. -/
theorem fillRamp_neutral_eq_specBase (ext : Externals) (rs : ℕ) (ramp : List ℕ) (br temp : ℤ)
    (hrs : 0 < rs) (hlen : 3 * rs ≤ ramp.length) (_hB : 0 < ext.brt_slider_steps)
    (_hb0 : 0 ≤ br) (_hb1 : br ≤ ext.brt_slider_steps)
    (hneutral : ext.setColors temp ⟨1, 1, 1⟩ = ⟨1, 1, 1⟩) :
    ∃ out : List ℕ,
      fillRamp ext rs ramp br temp = some out
      ∧ ∀ k, k < 3 → ∀ i, i < rs →
          ∃ v : ℕ, entry rs out k i = some v
            ∧ (v : ℤ) = specBase ext.brt_slider_steps rs br i := by
  obtain ⟨out, h1, -, h3⟩ := fillRamp_entries ext rs ramp br temp hrs hlen
  refine ⟨out, h1, fun k hk i hi => ⟨_, h3 k hk i hi, ?_⟩⟩
  have hone : (ext.setColors temp ⟨1, 1, 1⟩).get k = 1 := by
    rw [hneutral]; interval_cases k <;> rfl
  rw [hone]
  exact channelVal_neutral ext rs br i

/-- Instance of C2 at ramp size 2048 and half brightness: entry 1024 of every channel is 16384. -/
theorem fillRamp_neutral_eq_specBase_witness :
    (0 < 2048 ∧ 3 * 2048 ≤ (List.replicate 12288 0).length
      ∧ 0 < neutralExt.brt_slider_steps ∧ (0 : ℤ) ≤ 1024 ∧ 1024 ≤ neutralExt.brt_slider_steps
      ∧ neutralExt.setColors 0 ⟨1, 1, 1⟩ = ⟨1, 1, 1⟩)
    ∧ ∃ out : List ℕ,
      fillRamp neutralExt 2048 (List.replicate 12288 0) 1024 0 = some out
      ∧ ∀ k, k < 3 → entry 2048 out k 1024 = some 16384 := by
  refine ⟨⟨by decide, by simp only [List.length_replicate]; decide, by decide, by decide,
    by decide, rfl⟩, ?_⟩
  obtain ⟨out, h1, h2⟩ := fillRamp_neutral_eq_specBase neutralExt 2048
    (List.replicate 12288 0) 1024 0 (by decide)
    (by simp only [List.length_replicate]; decide) (by decide) (by decide) (by decide) rfl
  refine ⟨out, h1, fun k hk => ?_⟩
  obtain ⟨v, hv, hs⟩ := h2 k hk 1024 (by decide)
  have hz : (v : ℤ) = 16384 := by rw [hs]; exact specBase_half_brightness
  have hn : v = 16384 := by exact_mod_cast hz
  rw [hv, hn]

/-- C3: for every ramp size above zero and every temperature step, whatever colour factors
the lookup yields, `fillRamp` at brightness 0 writes 0 to all `ramp_sz` entries of the red,
green and blue channel. -/
theorem fillRamp_zero_brightness (ext : Externals) (rs : ℕ) (ramp : List ℕ) (temp : ℤ)
    (hrs : 0 < rs) (hlen : 3 * rs ≤ ramp.length) (_hB : 0 < ext.brt_slider_steps) :
    ∃ out : List ℕ,
      fillRamp ext rs ramp 0 temp = some out
      ∧ ∀ k, k < 3 → ∀ i, i < rs → entry rs out k i = some 0 := by
  obtain ⟨out, h1, -, h3⟩ := fillRamp_entries ext rs ramp 0 temp hrs hlen
  exact ⟨out, h1, fun k hk i hi => by rw [h3 k hk i hi, channelVal_zero_brightness]⟩

/-- Instance of C3 at ramp size 2048 on a buffer that held 7 everywhere. -/
theorem fillRamp_zero_brightness_witness :
    (0 < 2048 ∧ 3 * 2048 ≤ (List.replicate 12288 7).length ∧ 0 < warmExt.brt_slider_steps)
    ∧ ∃ out : List ℕ,
      fillRamp warmExt 2048 (List.replicate 12288 7) 0 1 = some out
      ∧ ∀ k, k < 3 → ∀ i, i < 2048 → entry 2048 out k i = some 0 :=
  ⟨⟨by decide, by simp only [List.length_replicate]; decide, by decide⟩,
    fillRamp_zero_brightness warmExt 2048 (List.replicate 12288 7) 1 (by decide)
      (by simp only [List.length_replicate]; decide) (by decide)⟩

/-- C4: for a ramp size that divides 65536, `fillRamp` at brightness `brt_slider_steps` with
the colour factors at `1.0` writes at the last index `ramp_sz - 1` of every channel the value
`v = 65536 - ramp_mult`, where `ramp_mult = 65536 / ramp_sz`; so `v ≤ 65535` and
`65535 - v ≤ ramp_mult - 1`. -/
theorem fillRamp_full_brightness_last (ext : Externals) (rs : ℕ) (ramp : List ℕ) (temp : ℤ)
    (hrs : 0 < rs) (hlen : 3 * rs ≤ ramp.length) (hB : 0 < ext.brt_slider_steps)
    (hdvd : rs ∣ 65536) (hneutral : ext.setColors temp ⟨1, 1, 1⟩ = ⟨1, 1, 1⟩) :
    ∃ out : List ℕ,
      fillRamp ext rs ramp ext.brt_slider_steps temp = some out
      ∧ ∀ k, k < 3 →
          ∃ v : ℕ, entry rs out k (rs - 1) = some v
            ∧ v = 65536 - 65536 / rs ∧ v ≤ 65535 ∧ 65535 - v ≤ 65536 / rs - 1 := by
  obtain ⟨out, h1, -, h3⟩ :=
    fillRamp_entries ext rs ramp ext.brt_slider_steps temp hrs hlen
  obtain ⟨m, hm⟩ := hdvd
  have hmpos : 0 < m := by
    rcases Nat.eq_zero_or_pos m with h | h
    · subst h; omega
    · exact h
  have hdiv : 65536 / rs = m := by rw [hm]; exact Nat.mul_div_cancel_left m hrs
  have hprod : m * (rs - 1) + m = 65536 := by
    have : m * (rs - 1) + m = m * rs := by
      conv_rhs => rw [show rs = rs - 1 + 1 by omega]
      ring
    rw [this, mul_comm]; exact hm.symm
  have hmle : m ≤ 65536 := by nlinarith
  refine ⟨out, h1, fun k hk => ⟨_, h3 k hk (rs - 1) (by omega), ?_⟩⟩
  have hone : (ext.setColors temp ⟨1, 1, 1⟩).get k = 1 := by
    rw [hneutral]; interval_cases k <;> rfl
  have hmult : (UINT16_MAX + 1) / (rs : ℤ) = (m : ℤ) := by
    have : (UINT16_MAX + 1 : ℤ) = ((65536 : ℕ) : ℤ) := by decide
    rw [this, ← Int.natCast_div, hdiv]
  have hval : rampVal ext.brt_slider_steps ((UINT16_MAX + 1) / (rs : ℤ))
      ext.brt_slider_steps (rs - 1) = ((m * (rs - 1) : ℕ) : ℤ) := by
    rw [hmult, rampVal_full hB (by omega) (by omega) (rs - 1) (by norm_cast; omega)]
    push_cast; rfl
  have hch : channelVal ext rs ext.brt_slider_steps
      ((ext.setColors temp ⟨1, 1, 1⟩).get k) (rs - 1) = m * (rs - 1) := by
    rw [hone]
    unfold channelVal
    rw [hval]
    have := toUInt16_fmul_one (v := ((m * (rs - 1) : ℕ) : ℤ)) (by omega) (by omega)
    exact_mod_cast this
  rw [hch, hdiv]
  omega

/-- Instance of C4 at ramp size 2048: the last entry is `65536 - 32 = 65504`. -/
theorem fillRamp_full_brightness_last_witness :
    (0 < 2048 ∧ 3 * 2048 ≤ (List.replicate 12288 0).length ∧ 0 < neutralExt.brt_slider_steps
      ∧ 2048 ∣ 65536 ∧ neutralExt.setColors 0 ⟨1, 1, 1⟩ = ⟨1, 1, 1⟩)
    ∧ ∃ out : List ℕ,
      fillRamp neutralExt 2048 (List.replicate 12288 0) neutralExt.brt_slider_steps 0 = some out
      ∧ ∀ k, k < 3 →
          ∃ v : ℕ, entry 2048 out k (2048 - 1) = some v
            ∧ v = 65536 - 65536 / 2048 ∧ v ≤ 65535 ∧ 65535 - v ≤ 65536 / 2048 - 1 :=
  ⟨⟨by decide, by simp only [List.length_replicate]; decide, by decide, by decide, rfl⟩,
    fillRamp_full_brightness_last neutralExt 2048 (List.replicate 12288 0) 0 (by decide)
      (by simp only [List.length_replicate]; decide) (by decide) (by decide) rfl⟩

theorem floor_le_roundNearest {p : ℚ} (hp : 0 ≤ p) :
    ⌊p⌋ ≤ roundNearest p ∧ roundNearest p ≤ ⌊p⌋ + 1 := by
  unfold roundNearest
  rw [if_pos hp]
  constructor
  · exact Int.floor_mono (by linarith)
  · have h : p + 1 / 2 ≤ p + 1 := by linarith
    have := Int.floor_mono h
    rwa [Int.floor_add_one] at this

/-- C5, counterexample: at ramp size 2048, full brightness and a blue factor of
`127 / 128`, the base value at index 1 is 32 and the product is 31.75; `fillRamp` stores 31
on the blue channel, while `round(base * colorFactor)` is 32. -/
theorem fillRamp_entry_not_rounded :
    ∃ out : List ℕ,
      fillRamp warmExt 2048 (List.replicate 12288 0) 1000 1 = some out
      ∧ entry 2048 out 2 1 = some 31
      ∧ specChannel (specBase 1000 2048 1000 1) ((warmExt.setColors 1 ⟨1, 1, 1⟩).get 2) = 32 := by
  obtain ⟨out, h1, -, h3⟩ := fillRamp_entries warmExt 2048 (List.replicate 12288 0) 1000 1
    (by decide) (by simp only [List.length_replicate]; decide)
  have hbase : rampVal 1000 ((UINT16_MAX + 1) / ((2048 : ℕ) : ℤ)) 1000 1 = 32 := by
    have hm : (UINT16_MAX + 1) / ((2048 : ℕ) : ℤ) = 32 := by decide
    rw [hm, rampVal_full (by decide) (by decide) (by decide) 1 (by decide)]
    decide
  have hprod : fmul ((32 : ℤ) : ℚ) (127 / 128) = 127 / 4 := by
    rw [fmul]
    have h := roundDouble_dyadic 127 (-2) (by norm_num) (by norm_num)
    norm_num at h ⊢
    exact h
  have hfloor : ⌊(127 / 4 : ℚ)⌋ = 31 := by
    rw [Int.floor_eq_iff]; norm_num
  have hcol : (warmExt.setColors 1 ⟨1, 1, 1⟩).get 2 = 127 / 128 := by
    simp [warmExt, Colors.get]
  refine ⟨out, h1, ?_, ?_⟩
  · rw [h3 2 (by decide) 1 (by decide), hcol]
    unfold channelVal
    have hB : warmExt.brt_slider_steps = 1000 := rfl
    rw [hB, hbase, hprod]
    have ht : truncToInt (127 / 4 : ℚ) = 31 := by
      rw [truncToInt_of_nonneg (by norm_num), hfloor]
    simp [toUInt16, ht]
  · rw [hcol, ← rampVal_eq_specBase, hbase]
    unfold specChannel roundNearest
    rw [hprod, if_pos (by norm_num), Int.floor_eq_iff]
    norm_num

/-- C5, amended: for colour factors in `[0, 1]` the value `fillRamp` stores at index `i` of
channel `k` is the `double` product `base_i * colorFactor[k]` with its fractional part
discarded (rounded toward zero, not to the nearest integer); the narrowing to 16 bits
changes nothing, and the stored value is `round(base_i * colorFactor[k])` or one less. -/
theorem fillRamp_entry_truncated (ext : Externals) (rs : ℕ) (ramp : List ℕ) (br temp : ℤ)
    (hrs : 0 < rs) (hlen : 3 * rs ≤ ramp.length) (_hB : 0 < ext.brt_slider_steps)
    (_hb0 : 0 ≤ br) (_hb1 : br ≤ ext.brt_slider_steps)
    (hc : ∀ k, k < 3 → 0 ≤ (ext.setColors temp ⟨1, 1, 1⟩).get k
      ∧ (ext.setColors temp ⟨1, 1, 1⟩).get k ≤ 1) :
    ∃ out : List ℕ,
      fillRamp ext rs ramp br temp = some out
      ∧ ∀ k, k < 3 → ∀ i, i < rs →
          ∃ v : ℕ, entry rs out k i = some v
            ∧ (v : ℤ) = ⌊fmul (specBase ext.brt_slider_steps rs br i)
                ((ext.setColors temp ⟨1, 1, 1⟩).get k)⌋
            ∧ (v : ℤ) ≤ specChannel (specBase ext.brt_slider_steps rs br i)
                ((ext.setColors temp ⟨1, 1, 1⟩).get k)
            ∧ specChannel (specBase ext.brt_slider_steps rs br i)
                ((ext.setColors temp ⟨1, 1, 1⟩).get k) ≤ (v : ℤ) + 1 := by
  obtain ⟨out, h1, -, h3⟩ := fillRamp_entries ext rs ramp br temp hrs hlen
  refine ⟨out, h1, fun k hk i hi => ⟨_, h3 k hk i hi, ?_⟩⟩
  have hb := rampVal_bounds ext.brt_slider_steps ((UINT16_MAX + 1) / rs) br i
  have ht := toUInt16_fmul hb.1 hb.2 (hc k hk).1 (hc k hk).2
  have hp : 0 ≤ fmul ((rampVal ext.brt_slider_steps ((UINT16_MAX + 1) / rs) br i : ℤ) : ℚ)
      ((ext.setColors temp ⟨1, 1, 1⟩).get k) :=
    fmul_nonneg (by exact_mod_cast hb.1) (hc k hk).1
  have hr := floor_le_roundNearest hp
  unfold channelVal specChannel
  rw [← rampVal_eq_specBase, ht.1]
  exact ⟨rfl, hr.1, hr.2⟩

/-- Instance of the amended C5 at ramp size 2048, full brightness and a blue factor of `127 / 128`. -/
theorem fillRamp_entry_truncated_witness :
    (0 < 2048 ∧ 3 * 2048 ≤ (List.replicate 12288 0).length ∧ 0 < warmExt.brt_slider_steps
      ∧ (0 : ℤ) ≤ 1000 ∧ 1000 ≤ warmExt.brt_slider_steps)
    ∧ ∃ out : List ℕ,
      fillRamp warmExt 2048 (List.replicate 12288 0) 1000 1 = some out
      ∧ ∀ k, k < 3 → ∀ i, i < 2048 →
          ∃ v : ℕ, entry 2048 out k i = some v
            ∧ (v : ℤ) = ⌊fmul (specBase warmExt.brt_slider_steps 2048 1000 i)
                ((warmExt.setColors 1 ⟨1, 1, 1⟩).get k)⌋
            ∧ (v : ℤ) ≤ specChannel (specBase warmExt.brt_slider_steps 2048 1000 i)
                ((warmExt.setColors 1 ⟨1, 1, 1⟩).get k)
            ∧ specChannel (specBase warmExt.brt_slider_steps 2048 1000 i)
                ((warmExt.setColors 1 ⟨1, 1, 1⟩).get k) ≤ (v : ℤ) + 1 :=
  ⟨⟨by decide, by simp only [List.length_replicate]; decide, by decide, by decide, by decide⟩,
    fillRamp_entry_truncated warmExt 2048 (List.replicate 12288 0) 1000 1 (by decide)
      (by simp only [List.length_replicate]; decide) (by decide) (by decide) (by decide)
      (by intro k hk; interval_cases k <;> norm_num [warmExt, Colors.get])⟩

/-! ## The object, the server and the restore path -/

theorem construct_sampleDisplay : X11.construct sampleDisplay = .constructed sampleX11 := rfl

/-- Every constructed object has a ramp size above zero and a snapshot buffer of
`3 * ramp_sz * sizeof(uint16_t)` entries. -/
theorem construct_inv {disp : Display} {x : X11} (h : X11.construct disp = .constructed x) :
    0 < x.ramp_sz ∧ x.init_ramp.length = 3 * x.ramp_sz * 2 := by
  unfold X11.construct at h
  split at h
  · exact absurd h (by simp)
  · split at h
    · exact absurd h (by simp)
    · split at h
      · exact absurd h (by simp)
      · split at h
        · exact absurd h (by simp)
        · split at h
          · exact absurd h (by simp)
          · rename_i hsz
            split at h
            · split at h
              · injection h with h; subst h
                exact ⟨Nat.pos_of_ne_zero hsz, by simp⟩
              · exact absurd h (by simp)
            · injection h with h; subst h
              exact ⟨Nat.pos_of_ne_zero hsz, by simp⟩

theorem set_crtc_gamma_spec (srv : Server) (crtc rs : ℕ) (buf : List ℕ)
    (h : 3 * rs ≤ buf.length) :
    xcb_randr_set_crtc_gamma srv crtc rs buf (0 * rs) (1 * rs) (2 * rs)
      = some (Function.update srv crtc
          (some ⟨rs, channel rs buf 0, channel rs buf 1, channel rs buf 2⟩)) := by
  unfold xcb_randr_set_crtc_gamma readRamp channel
  rw [if_pos (by omega), if_pos (by omega), if_pos (by omega)]

/-- For a ramp size above zero `setGamma` returns: it fills its buffer and pushes the three
channels of it to the controller, and leaves the object as it was. -/
theorem setGamma_spec (ext : Externals) (x : X11) (srv : Server) (b t : ℤ)
    (hrs : 0 < x.ramp_sz) :
    ∃ out : List ℕ,
      fillRamp ext x.ramp_sz (List.replicate (3 * x.ramp_sz * 2) 0) b t = some out
      ∧ out.length = 3 * x.ramp_sz * 2
      ∧ x.setGamma ext srv b t
          = some (x, Function.update srv x.crtc_num
              (some ⟨x.ramp_sz, channel x.ramp_sz out 0, channel x.ramp_sz out 1,
                channel x.ramp_sz out 2⟩)) := by
  obtain ⟨out, h1, h2, -⟩ := fillRamp_entries ext x.ramp_sz
    (List.replicate (3 * x.ramp_sz * 2) 0) b t hrs (by rw [List.length_replicate]; omega)
  rw [List.length_replicate] at h2
  refine ⟨out, h1, h2, ?_⟩
  unfold X11.setGamma
  rw [h1]
  simp only
  rw [set_crtc_gamma_spec srv x.crtc_num x.ramp_sz out (by omega)]

theorem runCalls_spec (ext : Externals) (x : X11) (hrs : 0 < x.ramp_sz)
    (calls : List GammaCall) (srv : Server) :
    ∃ srv' : Server, runCalls ext calls (x, srv) = some (x, srv') := by
  induction calls generalizing srv with
  | nil => exact ⟨srv, rfl⟩
  | cons c rest ih =>
    cases c with
    | setGamma b t =>
      obtain ⟨out, -, -, h⟩ := setGamma_spec ext x srv b t hrs
      obtain ⟨srv', h'⟩ := ih (Function.update srv x.crtc_num
        (some ⟨x.ramp_sz, channel x.ramp_sz out 0, channel x.ramp_sz out 1,
          channel x.ramp_sz out 2⟩))
      exact ⟨srv', by simp only [runCalls, h, h']⟩
    | setGammaTemp t =>
      obtain ⟨out, -, -, h⟩ := setGamma_spec ext x srv ext.brt_slider_steps t hrs
      obtain ⟨srv', h'⟩ := ih (Function.update srv x.crtc_num
        (some ⟨x.ramp_sz, channel x.ramp_sz out 0, channel x.ramp_sz out 1,
          channel x.ramp_sz out 2⟩))
      exact ⟨srv', by simp only [runCalls, X11.setGammaTemp, h, h']⟩

/-- C6: when construction captured a snapshot (`initial_ramp_exists` is true), any sequence
of `setGamma` calls returns and leaves the object (snapshot, ramp size and flag) as it was,
and `setInitialGamma(true)` after it pushes to the controller exactly the stored snapshot:
size `ramp_sz`, red, green and blue the `ramp_sz` entries of `init_ramp` from `0`,
`ramp_sz` and `2 * ramp_sz` on. -/
theorem setInitialGamma_restores_snapshot (ext : Externals) (disp : Display) (x : X11)
    (srv : Server) (calls : List GammaCall)
    (hc : X11.construct disp = .constructed x) (hflag : x.initial_ramp_exists = true) :
    ∃ srv' srv'' : Server,
      runCalls ext calls (x, srv) = some (x, srv')
      ∧ x.setInitialGamma ext srv' true = some (x, srv'')
      ∧ srv'' x.crtc_num
          = some ⟨x.ramp_sz, (x.init_ramp.drop (0 * x.ramp_sz)).take x.ramp_sz,
              (x.init_ramp.drop (1 * x.ramp_sz)).take x.ramp_sz,
              (x.init_ramp.drop (2 * x.ramp_sz)).take x.ramp_sz⟩
      ∧ ∀ k, k < 3 → ∀ i, i < x.ramp_sz →
          ((x.init_ramp.drop (k * x.ramp_sz)).take x.ramp_sz)[i]?
            = x.init_ramp[k * x.ramp_sz + i]? := by
  obtain ⟨hrs, hlen⟩ := construct_inv hc
  obtain ⟨srv', hrun⟩ := runCalls_spec ext x hrs calls srv
  refine ⟨srv', Function.update srv' x.crtc_num
    (some ⟨x.ramp_sz, channel x.ramp_sz x.init_ramp 0, channel x.ramp_sz x.init_ramp 1,
      channel x.ramp_sz x.init_ramp 2⟩), hrun, ?_, ?_, ?_⟩
  · unfold X11.setInitialGamma
    rw [hflag, Bool.and_self, if_pos rfl,
      set_crtc_gamma_spec srv' x.crtc_num x.ramp_sz x.init_ramp (by omega)]
  · rw [Function.update_same]; rfl
  · intro k _ i hi
    rw [List.getElem?_take_of_lt hi, List.getElem?_drop]

/-- Instance of C6 on the sample display after two `setGamma` calls. -/
theorem setInitialGamma_restores_snapshot_witness :
    (X11.construct sampleDisplay = .constructed sampleX11
      ∧ sampleX11.initial_ramp_exists = true)
    ∧ ∃ srv' srv'' : Server,
      runCalls warmExt [.setGamma 600 1, .setGammaTemp 0] (sampleX11, emptyServer)
        = some (sampleX11, srv')
      ∧ sampleX11.setInitialGamma warmExt srv' true = some (sampleX11, srv'')
      ∧ srv'' sampleX11.crtc_num
          = some ⟨sampleX11.ramp_sz,
              (sampleX11.init_ramp.drop (0 * sampleX11.ramp_sz)).take sampleX11.ramp_sz,
              (sampleX11.init_ramp.drop (1 * sampleX11.ramp_sz)).take sampleX11.ramp_sz,
              (sampleX11.init_ramp.drop (2 * sampleX11.ramp_sz)).take sampleX11.ramp_sz⟩
      ∧ ∀ k, k < 3 → ∀ i, i < sampleX11.ramp_sz →
          ((sampleX11.init_ramp.drop (k * sampleX11.ramp_sz)).take sampleX11.ramp_sz)[i]?
            = sampleX11.init_ramp[k * sampleX11.ramp_sz + i]? :=
  ⟨⟨rfl, rfl⟩,
    setInitialGamma_restores_snapshot warmExt sampleDisplay sampleX11 emptyServer
      [.setGamma 600 1, .setGammaTemp 0] rfl rfl⟩

/-- C7: on a display whose gamma reply supplies all three channels with the four entries
`256, 21845, 43690, 65535`, construction succeeds with a valid snapshot, and the snapshot
holds of every channel only the first entry: `init_ramp[1]` is 0 while the server's red
ramp has 21845 at index 1. -/
theorem construct_copies_first_entry_only :
    ∃ x : X11,
      X11.construct sampleDisplay = .constructed x
      ∧ x.initial_ramp_exists = true
      ∧ x.ramp_sz = 4
      ∧ (sampleDisplay.crtc_gamma x.crtc_num).map (fun r => r.red) = some (some sampleRamp)
      ∧ x.init_ramp[0]? = some 256 ∧ sampleRamp[0]? = some 256
      ∧ x.init_ramp[1]? = some 0 ∧ sampleRamp[1]? = some 21845 :=
  ⟨sampleX11, rfl, rfl, rfl, rfl, rfl, rfl, rfl, rfl⟩

/-- C8: when `set_previous` is false or no valid snapshot exists, `setInitialGamma` does
what `setGamma(brt_slider_steps, 0)` does: it pushes to the controller the three channels
`fillRamp` computes at maximum brightness and temperature step 0, and the result does not
depend on the content of the snapshot buffer. -/
theorem setInitialGamma_neutral_fallback (ext : Externals) (x : X11) (srv : Server)
    (p : Bool) (hrs : 0 < x.ramp_sz) (h : p = false ∨ x.initial_ramp_exists = false) :
    ∃ out : List ℕ,
      fillRamp ext x.ramp_sz (List.replicate (3 * x.ramp_sz * 2) 0) ext.brt_slider_steps 0
        = some out
      ∧ x.setInitialGamma ext srv p = x.setGamma ext srv ext.brt_slider_steps 0
      ∧ x.setInitialGamma ext srv p
          = some (x, Function.update srv x.crtc_num
              (some ⟨x.ramp_sz, (out.drop (0 * x.ramp_sz)).take x.ramp_sz,
                (out.drop (1 * x.ramp_sz)).take x.ramp_sz,
                (out.drop (2 * x.ramp_sz)).take x.ramp_sz⟩))
      ∧ ∀ snap : List ℕ,
          ({ x with init_ramp := snap }.setInitialGamma ext srv p).map Prod.snd
            = (x.setInitialGamma ext srv p).map Prod.snd := by
  have hcond : ∀ y : X11, y.initial_ramp_exists = x.initial_ramp_exists →
      y.setInitialGamma ext srv p = y.setGamma ext srv ext.brt_slider_steps 0 := by
    intro y hy
    unfold X11.setInitialGamma
    rw [hy]
    rcases h with h | h <;> simp [h]
  obtain ⟨out, h1, -, h3⟩ := setGamma_spec ext x srv ext.brt_slider_steps 0 hrs
  refine ⟨out, h1, hcond x rfl, ?_, ?_⟩
  · rw [hcond x rfl, h3]; rfl
  · intro snap
    rw [hcond x rfl, hcond { x with init_ramp := snap } rfl]
    unfold X11.setGamma
    simp only
    cases fillRamp ext x.ramp_sz (List.replicate (3 * x.ramp_sz * 2) 0)
        ext.brt_slider_steps 0 with
    | none => rfl
    | some r =>
      simp only
      cases xcb_randr_set_crtc_gamma srv x.crtc_num x.ramp_sz r (0 * x.ramp_sz)
          (1 * x.ramp_sz) (2 * x.ramp_sz) with
      | none => rfl
      | some s => rfl

/-- Instance of C8: `setInitialGamma(true)` on an object without a valid snapshot. -/
theorem setInitialGamma_neutral_fallback_witness :
    (0 < sampleX11.ramp_sz ∧ (true = false ∨ { sampleX11 with
        initial_ramp_exists := false }.initial_ramp_exists = false))
    ∧ ∃ out : List ℕ,
      fillRamp warmExt 4 (List.replicate (3 * 4 * 2) 0) warmExt.brt_slider_steps 0 = some out
      ∧ { sampleX11 with initial_ramp_exists := false }.setInitialGamma warmExt emptyServer true
          = { sampleX11 with initial_ramp_exists := false }.setGamma warmExt emptyServer
              warmExt.brt_slider_steps 0
      ∧ { sampleX11 with initial_ramp_exists := false }.setInitialGamma warmExt emptyServer true
          = some ({ sampleX11 with initial_ramp_exists := false },
              Function.update emptyServer 63
                (some ⟨4, (out.drop (0 * 4)).take 4, (out.drop (1 * 4)).take 4,
                  (out.drop (2 * 4)).take 4⟩))
      ∧ ∀ snap : List ℕ,
          ({ { sampleX11 with initial_ramp_exists := false } with
              init_ramp := snap }.setInitialGamma warmExt emptyServer true).map Prod.snd
            = ({ sampleX11 with initial_ramp_exists := false }.setInitialGamma warmExt
                emptyServer true).map Prod.snd :=
  ⟨⟨by decide, Or.inr rfl⟩,
    setInitialGamma_neutral_fallback warmExt { sampleX11 with initial_ramp_exists := false }
      emptyServer true (by decide) (Or.inr rfl)⟩

/-- The four failures the constructor checks for end in `exit(EXIT_FAILURE)`: no screen for
the screen number, no screen-resources reply, no gamma reply, a ramp size of zero. -/
theorem construct_exitFailure (disp : Display) :
    (screenOfDisplay disp disp.scr_num = none → X11.construct disp = .exitFailure)
    ∧ (∀ scr, screenOfDisplay disp disp.scr_num = some scr →
        disp.screen_resources scr.root = none → X11.construct disp = .exitFailure)
    ∧ (∀ scr rep crtc, screenOfDisplay disp disp.scr_num = some scr →
        disp.screen_resources scr.root = some rep → rep.payload[0]? = some crtc →
        disp.crtc_gamma crtc = none → X11.construct disp = .exitFailure)
    ∧ (∀ scr rep crtc g, screenOfDisplay disp disp.scr_num = some scr →
        disp.screen_resources scr.root = some rep → rep.payload[0]? = some crtc →
        disp.crtc_gamma crtc = some g → g.size = 0 → X11.construct disp = .exitFailure) := by
  refine ⟨?_, ?_, ?_, ?_⟩
  · intro h; simp [X11.construct, h]
  · intro scr h1 h2; simp [X11.construct, h1, h2]
  · intro scr rep crtc h1 h2 h3 h4; simp [X11.construct, h1, h2, h3, h4]
  · intro scr rep crtc g h1 h2 h3 h4 h5; simp [X11.construct, h1, h2, h3, h4, h5]

/-- C9: a screen-resources reply that reports no CRT controller does not end construction.
With the id of an output behind the header the constructor takes that id for the
controller and, the gamma query answered, yields an object; with nothing behind the header
it reads past the end of the reply. -/
theorem construct_without_crtc :
    (noCrtcDisplay.screen_resources 1).map (fun r => r.num_crtcs) = some 0
    ∧ (∃ x : X11, X11.construct noCrtcDisplay = .constructed x ∧ x.crtc_num = 66
        ∧ x.ramp_sz = 4)
    ∧ X11.construct { noCrtcDisplay with screen_resources := fun _ => some ⟨0, []⟩ }
        = .outOfBoundsRead :=
  ⟨rfl, ⟨{ sampleX11 with crtc_num := 66 }, rfl, rfl, rfl⟩, rfl⟩

theorem fillRampStores_indices (ext : Externals) (rs : ℕ) (b t : ℤ) :
    (fillRampStores ext rs b t).map Prod.fst
      = (List.range rs).flatMap fun i => [0 * rs + i, 1 * rs + i, 2 * rs + i] := by
  unfold fillRampStores
  simp only [List.map_flatMap, List.map_cons, List.map_nil]

theorem store_indices_perm (rs : ℕ) :
    ((List.range rs).flatMap fun i => [0 * rs + i, 1 * rs + i, 2 * rs + i]).Perm
      (List.range (3 * rs)) := by
  refine (List.perm_ext_iff_of_nodup ?_ (List.nodup_range _)).2 ?_
  · rw [List.nodup_flatMap]
    refine ⟨fun i hi => ?_, ?_⟩
    · have : i < rs := List.mem_range.1 hi
      simp only [List.nodup_cons, List.mem_cons, List.mem_singleton, List.not_mem_nil,
        List.nodup_nil, not_false_eq_true, and_true, or_false, not_or]
      omega
    · refine (List.pairwise_lt_range rs).imp_of_mem ?_
      intro a b ha hb hab
      have ha' : a < rs := List.mem_range.1 ha
      have hb' : b < rs := List.mem_range.1 hb
      simp only [Function.onFun, List.disjoint_cons_left, List.mem_cons, List.mem_singleton,
        List.not_mem_nil, or_false, List.disjoint_nil_left, and_true, not_or]
      omega
  · intro a
    simp only [List.mem_flatMap, List.mem_range, List.mem_cons, List.mem_singleton,
      List.not_mem_nil, or_false]
    constructor
    · rintro ⟨i, hi, h | h | h⟩ <;> omega
    · intro ha
      by_cases h1 : a < rs
      · exact ⟨a, h1, Or.inl (by omega)⟩
      · by_cases h2 : a < 2 * rs
        · exact ⟨a - rs, by omega, Or.inr (Or.inl (by omega))⟩
        · exact ⟨a - 2 * rs, by omega, Or.inr (Or.inr (by omega))⟩

/-- C10: for a constructed object `setGamma` has no division by zero and no access out of
range.  The divisor `ramp_sz` of `ramp_mult` is not zero; the buffer has at least
`3 * ramp_sz` entries; the indexes `fillRamp` stores to are a permutation of
`0, …, 3 * ramp_sz - 1`, so each of them is inside the buffer and is written once; from each
of the offsets `0`, `ramp_sz`, `2 * ramp_sz` handed to the set-gamma request `ramp_sz`
entries lie inside the buffer; and the call returns. -/
theorem setGamma_in_bounds (ext : Externals) (disp : Display) (x : X11) (srv : Server)
    (b t : ℤ) (hc : X11.construct disp = .constructed x) :
    (x.ramp_sz : ℤ) ≠ 0
    ∧ 3 * x.ramp_sz ≤ (List.replicate (3 * x.ramp_sz * 2) 0).length
    ∧ (fillRampStores ext x.ramp_sz b t).map Prod.fst
        = ((List.range x.ramp_sz).flatMap fun i =>
            [0 * x.ramp_sz + i, 1 * x.ramp_sz + i, 2 * x.ramp_sz + i])
    ∧ ((fillRampStores ext x.ramp_sz b t).map Prod.fst).Perm (List.range (3 * x.ramp_sz))
    ∧ (∀ k, k < 3 → k * x.ramp_sz + x.ramp_sz ≤ (List.replicate (3 * x.ramp_sz * 2) 0).length)
    ∧ ∃ srv' : Server, x.setGamma ext srv b t = some (x, srv') := by
  obtain ⟨hrs, -⟩ := construct_inv hc
  obtain ⟨out, -, -, h⟩ := setGamma_spec ext x srv b t hrs
  refine ⟨by exact_mod_cast hrs.ne', by rw [List.length_replicate]; omega,
    fillRampStores_indices ext x.ramp_sz b t, ?_, ?_, _, h⟩
  · rw [fillRampStores_indices]; exact store_indices_perm x.ramp_sz
  · intro k hk
    rw [List.length_replicate]
    interval_cases k <;> omega

/-- Instance of C10 on the object constructed from the sample display. -/
theorem setGamma_in_bounds_witness :
    X11.construct sampleDisplay = .constructed sampleX11
    ∧ (sampleX11.ramp_sz : ℤ) ≠ 0
    ∧ 3 * sampleX11.ramp_sz ≤ (List.replicate (3 * sampleX11.ramp_sz * 2) 0).length
    ∧ (fillRampStores warmExt sampleX11.ramp_sz 600 1).map Prod.fst
        = ((List.range sampleX11.ramp_sz).flatMap fun i =>
            [0 * sampleX11.ramp_sz + i, 1 * sampleX11.ramp_sz + i, 2 * sampleX11.ramp_sz + i])
    ∧ ((fillRampStores warmExt sampleX11.ramp_sz 600 1).map Prod.fst).Perm
        (List.range (3 * sampleX11.ramp_sz))
    ∧ (∀ k, k < 3 → k * sampleX11.ramp_sz + sampleX11.ramp_sz
        ≤ (List.replicate (3 * sampleX11.ramp_sz * 2) 0).length)
    ∧ ∃ srv' : Server, sampleX11.setGamma warmExt emptyServer 600 1 = some (sampleX11, srv') :=
  ⟨rfl, setGamma_in_bounds warmExt sampleDisplay sampleX11 emptyServer 600 1 rfl⟩

end Gammy
